import Mathlib

/-!
A shallow embedding of the `ModificationsWatcher` component of the go-leap/fs
filesystem-utility library (file `fs.go`), together with theorems about its
scan-and-raise behaviour.

The filesystem is modelled as two finite association lists: `statm` gives the
result of a successful `os.Stat` call per path (a missing key is a stat
failure), and `dirs` gives the result of a successful `ReadDirFunc` call per
directory path (a missing key is a listing failure).  Go's `int64` nanosecond
timestamps are modelled as `Int` (no overflow is exercised by the watcher).
A Go panic (nil-interface method call, nil function call) is modelled as the
`none` result of an `Option`-valued function; fuel makes the directory
recursion structurally terminating, and every concrete input in this file is
given fuel that the recursion cannot exhaust.

`time.Now().UnixNano()` is an input (`tstart`) of the per-cycle function, and
the caller-supplied callback `onModTime` is modelled by recording its three
arguments in the cycle's result (`cbRaisings`, `cbTstart`, `cbFirstrun`).
-/

/-- File mode as distinguished by the watcher's walk: `Mode().IsRegular()`,
`Mode().IsDir()`, or neither (e.g. a symlink or device). -/
inductive FMode where
  | regular : FMode
  | dir : FMode
  | otherMode : FMode
deriving DecidableEq, Repr, Inhabited

/-- The parts of Go's `os.FileInfo` interface the watcher reads: `Name()`,
`Mode()` and `ModTime().UnixNano()`. -/
structure FileInfo where
  name : String
  mode : FMode
  modTime : Int
deriving DecidableEq, Repr, Inhabited

/-- `fi.Mode().IsDir()`. -/
def FileInfo.IsDir (fi : FileInfo) : Bool := fi.mode == FMode.dir

/-- `fi.Mode().IsRegular()`. -/
def FileInfo.IsRegular (fi : FileInfo) : Bool := fi.mode == FMode.regular

/-- Association-list lookup, standing in for a Go map read (`m[k]`). -/
def lookupAL {α : Type} : List (String × α) → String → Option α
  | [], _ => none
  | (k, v) :: rest, key => if k = key then some v else lookupAL rest key

/-- Association-list insert-or-replace, standing in for a Go map write
(`m[k] = v`). -/
def insertAL {α : Type} : List (String × α) → String → α → List (String × α)
  | [], key, v => [(key, v)]
  | (k, w) :: rest, key, v =>
    if k = key then (key, v) :: rest else (k, w) :: insertAL rest key v

/-- `filepath.Join(dirPath, name)` (path cleaning is irrelevant here: the
watcher only ever joins a parent path with a child entry name). -/
def filepathJoin (dirPath name : String) : String := dirPath ++ "/" ++ name

/-- The filesystem as the watcher observes it: `statm` holds the successful
`os.Stat` results, `dirs` the successful `ReadDirFunc` listings.  A path
missing from `statm` is a stat failure, one missing from `dirs` a listing
failure (Go's `ioutil.ReadDir` returns a nil slice together with its error). -/
structure FS where
  statm : List (String × FileInfo)
  dirs : List (String × List FileInfo)
deriving DecidableEq, Repr

/-- The anonymous `gather` struct of `ModificationsWatcher`: an embedded
`os.FileInfo` interface value (nilable, hence `Option`) plus the nanosecond
mod-time. -/
structure Gather where
  fileInfo : Option FileInfo
  modTime : Int
deriving DecidableEq, Repr, Inhabited

/-- The per-cycle closure state of the scan: the `gathers` map and the
`modnewest` maximum tracker, both reset at the start of every cycle. -/
structure Scan where
  gathers : List (String × Gather)
  modnewest : Int
deriving DecidableEq, Repr, Inhabited

/-- The `checkmodtime` closure: resolve a nil fileinfo by a live stat, and if
one is available record the path in `gathers` and push `modnewest` up. -/
def checkmodtime (fs : FS) (fullpath : String) (fileinfo : Option FileInfo)
    (st : Scan) : Scan :=
  let fileinfo := match fileinfo with
    | none => lookupAL fs.statm fullpath
    | some fi => some fi
  match fileinfo with
  | none => st
  | some fi =>
    let modtime := fi.modTime
    { gathers := insertAL st.gathers fullpath ⟨some fi, modtime⟩
      modnewest := if modtime > st.modnewest then modtime else st.modnewest }

/-- The type of the `dirok` closure variable: `none` models a nil function
value; a call may itself panic (inner `Option`), which happens when the
wrapper installed by the cycle runner invokes a nil `dirOk`. -/
abbrev DirokFn := String → String → Option Bool

/-- The `for _, fi := range dircontents` loop inside `ondirorfile`: the
recursive call's boolean result is discarded, a panic propagates. -/
def ondirorfileChildren
    (recurse : String → Option FileInfo → Scan → Option (Scan × Bool))
    (fullpath : String) : List FileInfo → Scan → Option Scan
  | [], st => some st
  | fi :: rest, st =>
    match recurse (filepathJoin fullpath fi.name) (some fi) st with
    | none => none
    | some (st', _) => ondirorfileChildren recurse fullpath rest st'

/-- The `ondirorfile` closure.  A `none` argument for `fileinfo` models the
nil `os.FileInfo` that `walk` passes when the stat of a root fails; the Go
code immediately calls `fileinfo.IsDir()` on it, a nil-interface panic,
modelled by the `none` result.  A directory is admitted when the `dirok`
closure is nil or returns true; a file when the suffix restriction is empty
or matches.  Admitted paths are recorded via `checkmodtime`; an admitted
directory's listing (when it succeeds) is recursed into. -/
def ondirorfileF (fs : FS) (sfx : String) (dirok : Option DirokFn) :
    Nat → String → Option FileInfo → Scan → Option (Scan × Bool)
  | 0, _, _, _ => none
  | Nat.succ fuel, fullpath, fileinfo, st =>
    match fileinfo with
    | none => none
    | some fi =>
      let isdir := fi.IsDir
      let condM : Option Bool :=
        if isdir then
          match dirok with
          | none => some true
          | some f => f fullpath fi.name
        else
          some (sfx.length == 0 || String.endsWith fullpath sfx)
      match condM with
      | none => none
      | some cond =>
        if cond then
          let st := checkmodtime fs fullpath (some fi) st
          if isdir then
            match lookupAL fs.dirs fullpath with
            | some dircontents =>
              match ondirorfileChildren (ondirorfileF fs sfx dirok fuel)
                  fullpath dircontents st with
              | none => none
              | some st' => some (st', true)
            | none => some (st, true)
          else
            some (st, true)
        else
          some (st, true)

/-- The type of the `onDir`/`onFile` callbacks of `walk`, state-threaded;
`none` as a whole models a nil callback, a `none` result a panic. -/
abbrev WalkCB := String → Option FileInfo → Scan → Option (Scan × Bool)

/-- The body of one iteration of the `for _, fi := range fileInfos` loop
inside `walk` (`recurse` is the `traverse` recursion into a sub-directory):
a regular file goes to `onFile` when that is non-nil, a directory goes to
`onDir` when that is non-nil and is then recursed into when `traverse` is
set and walking is to continue; other modes are skipped.  The result triple
is (state, keepWalking, error-flag). -/
def walkStep (onDir onFile : Option WalkCB)
    (recurse : String → Scan → Option (Scan × Bool × Bool))
    (dirPath : String) (traverse : Bool) (fi : FileInfo) (kw : Bool)
    (st : Scan) : Option (Scan × Bool × Bool) :=
  let fspath := filepathJoin dirPath fi.name
  if fi.IsRegular && onFile.isSome then
    match onFile with
    | some f =>
      match f fspath (some fi) st with
      | none => none
      | some (st', kw') => some (st', kw', false)
    | none => some (st, kw, false)
  else if fi.IsDir then
    match (match onDir with
           | some f => f fspath (some fi) st
           | none => some (st, kw) : Option (Scan × Bool)) with
    | none => none
    | some (st', kw') =>
      if kw' && traverse then recurse fspath st'
      else some (st', kw', false)
  else
    some (st, kw, false)

/-- The `for _, fi := range fileInfos` loop inside `walk`, carrying
`keepWalking`; the loop breaks on an error from a recursive traverse or on
`keepWalking` turning false. -/
def walkIter (onDir onFile : Option WalkCB)
    (recurse : String → Scan → Option (Scan × Bool × Bool))
    (dirPath : String) (traverse : Bool) :
    List FileInfo → Bool → Scan → Option (Scan × Bool × Bool)
  | [], kw, st => some (st, kw, false)
  | fi :: rest, kw, st =>
    match walkStep onDir onFile recurse dirPath traverse fi kw st with
    | none => none
    | some (st', kw', errFlag) =>
      if errFlag || !kw' then some (st', kw', errFlag)
      else walkIter onDir onFile recurse dirPath traverse rest kw' st'

/-- The package-level `walk` function.  With `self` set it stats `dirPath`
(discarding the error) and hands the possibly-nil result to `onDir`; it then
lists `dirPath`, a failure being returned as the error flag unless
`wignore` (the `WalkIgnoreReadDirErrs` package variable) is set, and iterates
the listing.  The result triple is (state, keepWalking, error-flag). -/
def walkF (fs : FS) (wignore : Bool) (onDir onFile : Option WalkCB) :
    Nat → String → Bool → Bool → Scan → Option (Scan × Bool × Bool)
  | 0, _, _, _, _ => none
  | Nat.succ fuel, dirPath, self, traverse, st =>
    let selfRes : Option (Scan × Bool) :=
      match self, onDir with
      | true, some f => f dirPath (lookupAL fs.statm dirPath) st
      | _, _ => some (st, true)
    match selfRes with
    | none => none
    | some (st1, kw) =>
      if kw then
        match lookupAL fs.dirs dirPath with
        | some fileInfos =>
          walkIter onDir onFile
            (fun p s => walkF fs wignore onDir onFile fuel p false true s)
            dirPath traverse fileInfos kw st1
        | none =>
          if wignore then some (st1, kw, false) else some (st1, kw, true)
      else
        some (st1, kw, false)

/-- The construction-time configuration of `ModificationsWatcher`:
the file-suffix restriction, the (nilable) directory-admission function, and
`int64(postponeAnyModsLaterThanThisAgo)` in nanoseconds. -/
structure WatchCfg where
  restrictFilesToSuffix : String
  dirOk : Option (List String → List String → String → String → Bool)
  postponeAnyModsLaterThanThisAgo : Int

/-- The assignment `dirok = func(dirfullpath, dirname string) bool {...}` at
the start of every cycle: the closure variable is always made non-nil, and
the wrapped call panics (inner `none`) exactly when the constructor argument
`dirOk` is nil. -/
def mkDirok (cfg : WatchCfg) (dirpathsrecursive dirpathsother : List String) :
    Option DirokFn :=
  some (fun dirfullpath dirname =>
    match cfg.dirOk with
    | some f => some (f dirpathsrecursive dirpathsother dirfullpath dirname)
    | none => none)

/-- Fuel that the directory recursion cannot exhaust: recursion only
continues below a path that has a successful listing, and every recursion
step strictly lengthens the path, so nesting is bounded by the longest
listed path. -/
def scanFuel (fs : FS) : Nat :=
  (fs.dirs.map (fun kv => kv.fst.length)).foldr Nat.max 0 + 2

/-- The `for i := range dirpathsrecursive` loop of the cycle runner:
`walk(dirpathsrecursive[i], true, false, ondirorfile, nil)`, both results
discarded (but a panic propagates). -/
def scanRoots (fs : FS) (wignore : Bool) (sfx : String) (dirok : Option DirokFn) :
    List String → Scan → Option Scan
  | [], st => some st
  | root :: rest, st =>
    match walkF fs wignore (some (ondirorfileF fs sfx dirok (scanFuel fs))) none
        (scanFuel fs) root true false st with
    | none => none
    | some (st', _, _) => scanRoots fs wignore sfx dirok rest st'

/-- The `for _, fullpath := range dirpathsother` loop of the cycle runner:
`walk(fullpath, false, false, nil, ondirorfile)` with results discarded,
followed by `checkmodtime(fullpath, nil)`. -/
def scanOthers (fs : FS) (wignore : Bool) (sfx : String) (dirok : Option DirokFn) :
    List String → Scan → Option Scan
  | [], st => some st
  | fullpath :: rest, st =>
    match walkF fs wignore none (some (ondirorfileF fs sfx dirok (scanFuel fs)))
        (scanFuel fs) fullpath false false st with
    | none => none
    | some (st', _, _) =>
      scanOthers fs wignore sfx dirok rest (checkmodtime fs fullpath none st')

/-- The scan half of one cycle: reset the scan state, install the `dirok`
wrapper, walk the recursive roots, then the other paths. -/
def scanPhase (cfg : WatchCfg) (wignore : Bool) (fs : FS)
    (dirpathsrecursive dirpathsother : List String) : Option Scan :=
  let dirok := mkDirok cfg dirpathsrecursive dirpathsother
  match scanRoots fs wignore cfg.restrictFilesToSuffix dirok dirpathsrecursive
      ⟨[], 0⟩ with
  | none => none
  | some st => scanOthers fs wignore cfg.restrictFilesToSuffix dirok dirpathsother st

/-- The persistent state of a watcher instance between cycles: the
`firstrun` flag, the `gatherscap` capacity hint, and the `timeslastraised`
raise-history map. -/
structure WState where
  firstrun : Bool
  gatherscap : Nat
  timeslastraised : List (String × Int)
deriving DecidableEq, Repr, Inhabited

/-- The watcher state right after construction. -/
def initialWState : WState :=
  { firstrun := true, gatherscap := 64, timeslastraised := [] }

/-- The `for fullpath, gather := range gathers` raise loop: a path is raised
when its raise-history entry (0 when absent) is 0, or its gathered mod-time
is 0, or the history entry is at most the gathered mod-time; raising writes
`tstart` into the history and the gathered fileinfo into `raisings`. -/
def raiseLoop (tstart : Int) :
    List (String × Gather) → List (String × Int) → List (String × Option FileInfo) →
    List (String × Int) × List (String × Option FileInfo)
  | [], tlrs, raisings => (tlrs, raisings)
  | (fullpath, g) :: rest, tlrs, raisings =>
    let tlr := (lookupAL tlrs fullpath).getD 0
    if tlr = 0 ∨ g.modTime = 0 ∨ tlr ≤ g.modTime then
      raiseLoop tstart rest (insertAL tlrs fullpath tstart)
        (insertAL raisings fullpath g.fileInfo)
    else
      raiseLoop tstart rest tlrs raisings

/-- Everything one invocation of the per-cycle function produces: its return
value, the successor watcher state, and the three arguments passed to the
`onModTime` callback. -/
structure CycleResult where
  numraised : Nat
  wstate : WState
  cbRaisings : List (String × Option FileInfo)
  cbTstart : Int
  cbFirstrun : Bool
deriving DecidableEq, Repr, Inhabited

/-- The raise half of one cycle (lines after the scan loops): store the new
capacity hint, raise when `firstrun || postpone <= 0 || tstart-modnewest >
postpone`, record the callback arguments, return the count, clear
`firstrun`. -/
def raisePhase (postpone : Int) (tstart : Int) (scan : Scan) (w : WState) :
    CycleResult :=
  let doRaise := w.firstrun || decide (postpone ≤ 0)
    || decide (tstart - scan.modnewest > postpone)
  let res :=
    if doRaise then raiseLoop tstart scan.gathers w.timeslastraised []
    else (w.timeslastraised, [])
  { numraised := res.2.length
    wstate := { firstrun := false, gatherscap := scan.gathers.length
                timeslastraised := res.1 }
    cbRaisings := res.2
    cbTstart := tstart
    cbFirstrun := w.firstrun }

/-- One invocation of the function returned by `ModificationsWatcher`:
scan, then raise under the hold-off policy, then call back and return the
number of raised paths.  `none` models a panic escaping the invocation. -/
def runCycle (cfg : WatchCfg) (wignore : Bool) (fs : FS) (tstart : Int)
    (dirpathsrecursive dirpathsother : List String) (w : WState) :
    Option CycleResult :=
  match scanPhase cfg wignore fs dirpathsrecursive dirpathsother with
  | none => none
  | some scan =>
    some (raisePhase cfg.postponeAnyModsLaterThanThisAgo tstart scan w)

/-! Association-list lemmas. -/

lemma lookupAL_insert_self {α : Type} (l : List (String × α)) (k : String) (v : α) :
    lookupAL (insertAL l k v) k = some v := by
  induction l with
  | nil => simp [insertAL, lookupAL]
  | cons kw rest ih =>
    obtain ⟨k', w⟩ := kw
    by_cases h : k' = k
    · simp [insertAL, h, lookupAL]
    · simp [insertAL, h, lookupAL, ih]

lemma lookupAL_insert_ne {α : Type} (l : List (String × α)) (k q : String) (v : α)
    (hne : q ≠ k) : lookupAL (insertAL l k v) q = lookupAL l q := by
  induction l with
  | nil =>
    simp only [insertAL, lookupAL]
    rw [if_neg (fun h => hne h.symm)]
  | cons kw rest ih =>
    obtain ⟨k', w⟩ := kw
    by_cases h : k' = k
    · subst h
      simp only [insertAL, if_pos rfl, lookupAL]
      rw [if_neg (fun h => hne h.symm), if_neg (fun h => hne h.symm)]
    · simp only [insertAL, if_neg h, lookupAL]
      by_cases h2 : k' = q
      · simp [h2]
      · simp [h2, ih]

lemma mem_insertAL {α : Type} (l : List (String × α)) (k : String) (v : α)
    (pg : String × α) (h : pg ∈ insertAL l k v) : pg ∈ l ∨ pg = (k, v) := by
  induction l with
  | nil => simp [insertAL] at h; simp [h]
  | cons kw rest ih =>
    obtain ⟨k', w⟩ := kw
    by_cases hk : k' = k
    · simp only [insertAL, if_pos hk, List.mem_cons] at h
      rcases h with h | h
      · right; exact h
      · left; exact List.mem_cons_of_mem _ h
    · simp only [insertAL, if_neg hk, List.mem_cons] at h
      rcases h with h | h
      · left; simp [h]
      · rcases ih h with h2 | h2
        · left; exact List.mem_cons_of_mem _ h2
        · right; exact h2

lemma mem_keys_insertAL {α : Type} (l : List (String × α)) (k : String) (v : α)
    (q : String) (h : q ∈ (insertAL l k v).map Prod.fst) :
    q = k ∨ q ∈ l.map Prod.fst := by
  simp only [List.mem_map] at h
  obtain ⟨pg, hmem, hq⟩ := h
  rcases mem_insertAL l k v pg hmem with h2 | h2
  · right
    exact hq ▸ List.mem_map_of_mem Prod.fst h2
  · left
    rw [← hq, h2]

lemma keys_nodup_insertAL {α : Type} (l : List (String × α)) (k : String) (v : α)
    (h : (l.map Prod.fst).Nodup) : ((insertAL l k v).map Prod.fst).Nodup := by
  induction l with
  | nil => simp [insertAL]
  | cons kw rest ih =>
    obtain ⟨k', w⟩ := kw
    simp only [List.map_cons, List.nodup_cons] at h
    by_cases hk : k' = k
    · simp only [insertAL, if_pos hk, List.map_cons, List.nodup_cons]
      exact ⟨hk ▸ h.1, h.2⟩
    · simp only [insertAL, if_neg hk, List.map_cons, List.nodup_cons]
      refine ⟨fun hin => ?_, ih h.2⟩
      rcases mem_keys_insertAL rest k v k' hin with h2 | h2
      · exact hk h2
      · exact h.1 h2

lemma mem_of_lookupAL {α : Type} (l : List (String × α)) (q : String) (v : α)
    (h : lookupAL l q = some v) : (q, v) ∈ l := by
  induction l with
  | nil => simp [lookupAL] at h
  | cons kw rest ih =>
    obtain ⟨k', w⟩ := kw
    simp only [lookupAL] at h
    split at h
    · next heq =>
      injection h with h
      subst heq h
      exact List.mem_cons_self _ _
    · next hne =>
      exact List.mem_cons_of_mem _ (ih h)

lemma lookupAL_isSome_of_mem_keys {α : Type} (l : List (String × α)) (q : String)
    (h : q ∈ l.map Prod.fst) : (lookupAL l q).isSome = true := by
  induction l with
  | nil => simp at h
  | cons kw rest ih =>
    obtain ⟨k', w⟩ := kw
    by_cases hk : k' = q
    · simp [lookupAL, hk]
    · simp only [List.map_cons, List.mem_cons] at h
      rcases h with h | h
      · exact absurd h.symm hk
      · simp [lookupAL, hk, ih h]

lemma lookupAL_none_of_not_mem_keys {α : Type} (l : List (String × α)) (q : String)
    (h : q ∉ l.map Prod.fst) : lookupAL l q = none := by
  cases hl : lookupAL l q with
  | none => rfl
  | some v =>
    exact absurd (List.mem_map_of_mem Prod.fst (mem_of_lookupAL l q v hl)) h

lemma mem_keys_of_lookupAL_isSome {α : Type} (l : List (String × α)) (q : String)
    (h : (lookupAL l q).isSome = true) : q ∈ l.map Prod.fst := by
  by_contra hq
  rw [lookupAL_none_of_not_mem_keys l q hq] at h
  simp at h

lemma lookupAL_eq_of_mem_nodup {α : Type} (l : List (String × α)) (q : String) (v : α)
    (hnd : (l.map Prod.fst).Nodup) (h : (q, v) ∈ l) : lookupAL l q = some v := by
  induction l with
  | nil => simp at h
  | cons kw rest ih =>
    obtain ⟨k', w⟩ := kw
    simp only [List.map_cons, List.nodup_cons] at hnd
    rcases List.mem_cons.mp h with h1 | h1
    · injection h1 with ha hb
      subst ha hb
      simp [lookupAL]
    · simp only [lookupAL]
      split
      · next heq =>
        apply absurd _ hnd.1
        rw [heq]
        exact List.mem_map_of_mem Prod.fst h1
      · next hne =>
        exact ih hnd.2 h1

/-! The scan invariant: the `gathers` map has distinct keys (it is a Go map)
and every recorded `gather` holds a non-nil fileinfo (only `checkmodtime`
writes to it, and only under its non-nil guard). -/

/-- Invariant of the per-cycle scan state. -/
def ScanInv (st : Scan) : Prop :=
  (st.gathers.map Prod.fst).Nodup ∧
  ∀ pg ∈ st.gathers, (Prod.snd pg : Gather).fileInfo.isSome = true

lemma ScanInv_empty : ScanInv ⟨[], 0⟩ := by
  constructor
  · simp
  · intro pg h; simp at h

lemma ScanInv_insert (st : Scan) (p : String) (fi : FileInfo) (mt mn : Int)
    (h : ScanInv st) :
    ScanInv ⟨insertAL st.gathers p ⟨some fi, mt⟩, mn⟩ := by
  constructor
  · exact keys_nodup_insertAL st.gathers p _ h.1
  · intro pg hmem
    rcases mem_insertAL st.gathers p _ pg hmem with h2 | h2
    · exact h.2 pg h2
    · simp [h2]

lemma checkmodtime_inv (fs : FS) (p : String) (fio : Option FileInfo) (st : Scan)
    (h : ScanInv st) : ScanInv (checkmodtime fs p fio st) := by
  unfold checkmodtime
  cases fio with
  | none =>
    cases hs : lookupAL fs.statm p with
    | none => simpa [hs] using h
    | some fi => simpa [hs] using ScanInv_insert st p fi fi.modTime _ h
  | some fi => exact ScanInv_insert st p fi fi.modTime _ h

/-- A walk callback that preserves the scan invariant. -/
def PreservesInv (cb : WalkCB) : Prop :=
  ∀ p fio st st' b, ScanInv st → cb p fio st = some (st', b) → ScanInv st'

lemma ondirorfileChildren_inv (recurse : WalkCB) (hrec : PreservesInv recurse)
    (fullpath : String) :
    ∀ (l : List FileInfo) (st st' : Scan), ScanInv st →
      ondirorfileChildren recurse fullpath l st = some st' → ScanInv st' := by
  intro l
  induction l with
  | nil =>
    intro st st' h hl
    simp only [ondirorfileChildren, Option.some.injEq] at hl
    exact hl ▸ h
  | cons fi rest ih =>
    intro st st' h hl
    simp only [ondirorfileChildren] at hl
    cases hr : recurse (filepathJoin fullpath fi.name) (some fi) st with
    | none => rw [hr] at hl; exact absurd hl (by simp)
    | some sb =>
      obtain ⟨st1, b⟩ := sb
      rw [hr] at hl
      exact ih st1 st' (hrec _ _ _ _ _ h hr) hl

lemma ondirorfileF_inv (fs : FS) (sfx : String) (dk : Option DirokFn) :
    ∀ fuel, PreservesInv (ondirorfileF fs sfx dk fuel) := by
  intro fuel
  induction fuel with
  | zero =>
    intro p fio st st' b h hcall
    simp [ondirorfileF] at hcall
  | succ fuel ih =>
    intro p fio st st' b h hcall
    cases fio with
    | none => simp [ondirorfileF] at hcall
    | some fi =>
      simp only [ondirorfileF] at hcall
      split at hcall
      · exact absurd hcall (by simp)
      · next cond hcond =>
        split at hcall
        · next hc =>
          split at hcall
          · next hdir =>
            split at hcall
            · next dircontents hdc =>
              split at hcall
              · exact absurd hcall (by simp)
              · next st1 hch =>
                injection hcall with hcall
                obtain ⟨h1, h2⟩ := Prod.mk.injEq .. ▸ hcall
                subst h1
                exact ondirorfileChildren_inv _ ih p _ _ _
                  (checkmodtime_inv fs p (some fi) st h) hch
            · next hdc =>
              injection hcall with hcall
              obtain ⟨h1, h2⟩ := Prod.mk.injEq .. ▸ hcall
              subst h1
              exact checkmodtime_inv fs p (some fi) st h
          · next hdir =>
            injection hcall with hcall
            obtain ⟨h1, h2⟩ := Prod.mk.injEq .. ▸ hcall
            subst h1
            exact checkmodtime_inv fs p (some fi) st h
        · next hc =>
          injection hcall with hcall
          obtain ⟨h1, h2⟩ := Prod.mk.injEq .. ▸ hcall
          subst h1
          exact h

/-- A walk-recursion function that preserves the scan invariant. -/
def PreservesInvT (recurse : String → Scan → Option (Scan × Bool × Bool)) : Prop :=
  ∀ p st st' b e, ScanInv st → recurse p st = some (st', b, e) → ScanInv st'

lemma walkStep_inv_dironly (cb : WalkCB) (hcb : PreservesInv cb)
    (recurse : String → Scan → Option (Scan × Bool × Bool))
    (dirPath : String) (fi : FileInfo) (kw : Bool)
    (st stp : Scan) (kwp ep : Bool) (h : ScanInv st)
    (hstep : walkStep (some cb) none recurse dirPath false fi kw st =
      some (stp, kwp, ep)) :
    ScanInv stp := by
  simp only [walkStep, Option.isSome_none, Bool.and_false] at hstep
  split at hstep
  · next hfalse => simp at hfalse
  · split at hstep
    · next hdir =>
      split at hstep
      · exact absurd hstep (by simp)
      · next st1 kw1 hcall =>
        injection hstep with hstep
        obtain ⟨h1, _⟩ := Prod.mk.injEq .. ▸ hstep
        exact h1 ▸ hcb _ _ _ _ _ h hcall
    · next hdir =>
      injection hstep with hstep
      obtain ⟨h1, _⟩ := Prod.mk.injEq .. ▸ hstep
      exact h1 ▸ h

lemma walkStep_inv_fileonly (cb : WalkCB) (hcb : PreservesInv cb)
    (recurse : String → Scan → Option (Scan × Bool × Bool))
    (dirPath : String) (fi : FileInfo) (kw : Bool)
    (st stp : Scan) (kwp ep : Bool) (h : ScanInv st)
    (hstep : walkStep none (some cb) recurse dirPath false fi kw st =
      some (stp, kwp, ep)) :
    ScanInv stp := by
  simp only [walkStep, Option.isSome_some, Bool.and_true] at hstep
  split at hstep
  · next hreg =>
    split at hstep
    · exact absurd hstep (by simp)
    · next st1 kw1 hcall =>
      injection hstep with hstep
      obtain ⟨h1, _⟩ := Prod.mk.injEq .. ▸ hstep
      exact h1 ▸ hcb _ _ _ _ _ h hcall
  · next hreg =>
    split at hstep
    · next hdir =>
      simp only [Bool.and_false] at hstep
      injection hstep with hstep
      obtain ⟨h1, _⟩ := Prod.mk.injEq .. ▸ hstep
      exact h1 ▸ h
    · next hdir =>
      injection hstep with hstep
      obtain ⟨h1, _⟩ := Prod.mk.injEq .. ▸ hstep
      exact h1 ▸ h

lemma walkIter_inv_dironly (cb : WalkCB) (hcb : PreservesInv cb)
    (recurse : String → Scan → Option (Scan × Bool × Bool)) (dirPath : String) :
    ∀ (l : List FileInfo) (kw : Bool) (st st' : Scan) (kw' e : Bool),
      ScanInv st →
      walkIter (some cb) none recurse dirPath false l kw st = some (st', kw', e) →
      ScanInv st' := by
  intro l
  induction l with
  | nil =>
    intro kw st st' kw' e h hl
    simp only [walkIter, Option.some.injEq] at hl
    obtain ⟨h1, _⟩ := Prod.mk.injEq .. ▸ hl
    exact h1 ▸ h
  | cons fi rest ih =>
    intro kw st st' kw' e h hl
    simp only [walkIter] at hl
    split at hl
    · exact absurd hl (by simp)
    · next stp kwp ep hstep =>
      have hinvp := walkStep_inv_dironly cb hcb recurse dirPath fi kw st stp kwp
        ep h hstep
      split at hl
      · injection hl with hl
        obtain ⟨h1, _⟩ := Prod.mk.injEq .. ▸ hl
        exact h1 ▸ hinvp
      · exact ih kwp stp st' kw' e hinvp hl

lemma walkIter_inv_fileonly (cb : WalkCB) (hcb : PreservesInv cb)
    (recurse : String → Scan → Option (Scan × Bool × Bool)) (dirPath : String) :
    ∀ (l : List FileInfo) (kw : Bool) (st st' : Scan) (kw' e : Bool),
      ScanInv st →
      walkIter none (some cb) recurse dirPath false l kw st = some (st', kw', e) →
      ScanInv st' := by
  intro l
  induction l with
  | nil =>
    intro kw st st' kw' e h hl
    simp only [walkIter, Option.some.injEq] at hl
    obtain ⟨h1, _⟩ := Prod.mk.injEq .. ▸ hl
    exact h1 ▸ h
  | cons fi rest ih =>
    intro kw st st' kw' e h hl
    simp only [walkIter] at hl
    split at hl
    · exact absurd hl (by simp)
    · next stp kwp ep hstep =>
      have hinvp := walkStep_inv_fileonly cb hcb recurse dirPath fi kw st stp kwp
        ep h hstep
      split at hl
      · injection hl with hl
        obtain ⟨h1, _⟩ := Prod.mk.injEq .. ▸ hl
        exact h1 ▸ hinvp
      · exact ih kwp stp st' kw' e hinvp hl

lemma walkF_inv_dironly (fs : FS) (wignore : Bool) (cb : WalkCB)
    (hcb : PreservesInv cb) (fuel : Nat) (p : String) (self : Bool)
    (st st' : Scan) (kw e : Bool) (h : ScanInv st)
    (hw : walkF fs wignore (some cb) none fuel p self false st = some (st', kw, e)) :
    ScanInv st' := by
  cases fuel with
  | zero => simp [walkF] at hw
  | succ fuel =>
    cases self with
    | false =>
      simp only [walkF] at hw
      split at hw
      · split at hw
        · next fileInfos hdc =>
          exact walkIter_inv_dironly cb hcb _ p fileInfos true st st' kw e h hw
        · next hdc =>
          split at hw
          · injection hw with hw
            obtain ⟨h1, _⟩ := Prod.mk.injEq .. ▸ hw
            exact h1 ▸ h
          · injection hw with hw
            obtain ⟨h1, _⟩ := Prod.mk.injEq .. ▸ hw
            exact h1 ▸ h
      · next hT => exact absurd trivial hT
    | true =>
      simp only [walkF] at hw
      split at hw
      · exact absurd hw (by simp)
      · next st1 kw1 hself =>
        have hinv1 : ScanInv st1 := hcb _ _ _ _ _ h hself
        split at hw
        · next hkw =>
          split at hw
          · next fileInfos hdc =>
            exact walkIter_inv_dironly cb hcb _ p fileInfos kw1 st1 st' kw e hinv1 hw
          · next hdc =>
            split at hw
            · injection hw with hw
              obtain ⟨h1, _⟩ := Prod.mk.injEq .. ▸ hw
              exact h1 ▸ hinv1
            · injection hw with hw
              obtain ⟨h1, _⟩ := Prod.mk.injEq .. ▸ hw
              exact h1 ▸ hinv1
        · next hkw =>
          injection hw with hw
          obtain ⟨h1, _⟩ := Prod.mk.injEq .. ▸ hw
          exact h1 ▸ hinv1

lemma walkF_inv_fileonly (fs : FS) (wignore : Bool) (cb : WalkCB)
    (hcb : PreservesInv cb) (fuel : Nat) (p : String) (self : Bool)
    (st st' : Scan) (kw e : Bool) (h : ScanInv st)
    (hw : walkF fs wignore none (some cb) fuel p self false st = some (st', kw, e)) :
    ScanInv st' := by
  cases fuel with
  | zero => simp [walkF] at hw
  | succ fuel =>
    simp only [walkF] at hw
    split at hw
    · split at hw
      · next fileInfos hdc =>
        exact walkIter_inv_fileonly cb hcb _ p fileInfos true st st' kw e h hw
      · next hdc =>
        split at hw
        · injection hw with hw
          obtain ⟨h1, _⟩ := Prod.mk.injEq .. ▸ hw
          exact h1 ▸ h
        · injection hw with hw
          obtain ⟨h1, _⟩ := Prod.mk.injEq .. ▸ hw
          exact h1 ▸ h
    · next hT => exact absurd trivial hT

lemma scanRoots_inv (fs : FS) (wignore : Bool) (sfx : String)
    (dirok : Option DirokFn) :
    ∀ (roots : List String) (st st' : Scan), ScanInv st →
      scanRoots fs wignore sfx dirok roots st = some st' → ScanInv st' := by
  intro roots
  induction roots with
  | nil =>
    intro st st' h hs
    simp only [scanRoots, Option.some.injEq] at hs
    exact hs ▸ h
  | cons root rest ih =>
    intro st st' h hs
    simp only [scanRoots] at hs
    split at hs
    · exact absurd hs (by simp)
    · next st1 kw1 e1 hwalk =>
      exact ih st1 st'
        (walkF_inv_dironly fs wignore _ (ondirorfileF_inv fs sfx dirok (scanFuel fs))
          (scanFuel fs) root true st st1 kw1 e1 h hwalk) hs

lemma scanOthers_inv (fs : FS) (wignore : Bool) (sfx : String)
    (dirok : Option DirokFn) :
    ∀ (others : List String) (st st' : Scan), ScanInv st →
      scanOthers fs wignore sfx dirok others st = some st' → ScanInv st' := by
  intro others
  induction others with
  | nil =>
    intro st st' h hs
    simp only [scanOthers, Option.some.injEq] at hs
    exact hs ▸ h
  | cons fullpath rest ih =>
    intro st st' h hs
    simp only [scanOthers] at hs
    split at hs
    · exact absurd hs (by simp)
    · next st1 kw1 e1 hwalk =>
      exact ih _ st'
        (checkmodtime_inv fs fullpath none st1
          (walkF_inv_fileonly fs wignore _ (ondirorfileF_inv fs sfx dirok (scanFuel fs))
            (scanFuel fs) fullpath false st st1 kw1 e1 h hwalk)) hs

lemma scanPhase_inv (cfg : WatchCfg) (wignore : Bool) (fs : FS)
    (dirpathsrecursive dirpathsother : List String) (scan : Scan)
    (hs : scanPhase cfg wignore fs dirpathsrecursive dirpathsother = some scan) :
    ScanInv scan := by
  simp only [scanPhase] at hs
  split at hs
  · exact absurd hs (by simp)
  · next st1 hroots =>
    exact scanOthers_inv fs wignore cfg.restrictFilesToSuffix _ dirpathsother st1
      scan (scanRoots_inv fs wignore cfg.restrictFilesToSuffix _ dirpathsrecursive
        ⟨[], 0⟩ st1 ScanInv_empty hroots) hs

/-! Lemmas about the raise loop and the raise phase. -/

lemma lookupAL_cons_ne {α : Type} (k q : String) (v : α) (l : List (String × α))
    (hne : q ≠ k) : lookupAL ((k, v) :: l) q = lookupAL l q := by
  simp only [lookupAL]
  rw [if_neg (fun h => hne h.symm)]

lemma raiseLoop_none (t : Int) :
    ∀ (gs : List (String × Gather)) (tlrs : List (String × Int))
      (acc : List (String × Option FileInfo)),
    (∀ pg ∈ gs, ¬((lookupAL tlrs (Prod.fst pg)).getD 0 = 0 ∨
        (Prod.snd pg : Gather).modTime = 0 ∨
        (lookupAL tlrs (Prod.fst pg)).getD 0 ≤ (Prod.snd pg).modTime)) →
    raiseLoop t gs tlrs acc = (tlrs, acc) := by
  intro gs
  induction gs with
  | nil => intro tlrs acc h; simp [raiseLoop]
  | cons pg rest ih =>
    intro tlrs acc h
    obtain ⟨q, g⟩ := pg
    simp only [raiseLoop]
    rw [if_neg (h (q, g) (List.mem_cons_self _ _))]
    exact ih tlrs acc (fun pg hm => h pg (List.mem_cons_of_mem _ hm))

lemma raiseLoop_fresh (t : Int) :
    ∀ (gs : List (String × Gather)) (tlrs : List (String × Int))
      (acc : List (String × Option FileInfo)) (p : String),
    (gs.map Prod.fst).Nodup →
    (∀ q, (lookupAL gs q).isSome = true → lookupAL tlrs q = none) →
    lookupAL (raiseLoop t gs tlrs acc).1 p =
      (if (lookupAL gs p).isSome = true then some t else lookupAL tlrs p) ∧
    lookupAL (raiseLoop t gs tlrs acc).2 p =
      (match lookupAL gs p with
       | some g => some g.fileInfo
       | none => lookupAL acc p) := by
  intro gs
  induction gs with
  | nil =>
    intro tlrs acc p hnd hfresh
    simp [raiseLoop, lookupAL]
  | cons qg rest ih =>
    intro tlrs acc p hnd hfresh
    obtain ⟨q, g⟩ := qg
    have hqhead : lookupAL ((q, g) :: rest) q = some g := by simp [lookupAL]
    have hqtlrs : lookupAL tlrs q = none := hfresh q (by simp [hqhead])
    simp only [List.map_cons, List.nodup_cons] at hnd
    have hqnotin : q ∉ rest.map Prod.fst := hnd.1
    have hrestnone : lookupAL rest q = none :=
      lookupAL_none_of_not_mem_keys rest q hqnotin
    simp only [raiseLoop]
    rw [if_pos (by rw [hqtlrs]; exact Or.inl rfl)]
    have hfresh' : ∀ q', (lookupAL rest q').isSome = true →
        lookupAL (insertAL tlrs q t) q' = none := by
      intro q' hq'
      have hne : q' ≠ q := fun hEq =>
        hqnotin (hEq ▸ mem_keys_of_lookupAL_isSome rest q' hq')
      rw [lookupAL_insert_ne tlrs q q' t hne]
      refine hfresh q' ?_
      rw [lookupAL_cons_ne q q' g rest hne]
      exact hq'
    have IH := ih (insertAL tlrs q t) (insertAL acc q g.fileInfo) p hnd.2 hfresh'
    by_cases hpq : p = q
    · subst hpq
      constructor
      · rw [IH.1, hqhead]
        simp only [hrestnone, Option.isSome_none, Option.isSome_some, if_true]
        rw [if_neg (by simp)]
        exact lookupAL_insert_self tlrs p t
      · rw [IH.2, hqhead]
        simp only [hrestnone]
        exact lookupAL_insert_self acc p g.fileInfo
    · have hskip : lookupAL ((q, g) :: rest) p = lookupAL rest p :=
        lookupAL_cons_ne q p g rest hpq
      constructor
      · rw [IH.1, hskip, lookupAL_insert_ne tlrs q p t hpq]
      · rw [IH.2, hskip, lookupAL_insert_ne acc q p g.fileInfo hpq]

lemma raiseLoop_raised (t : Int) (tlrs0 : List (String × Int)) :
    ∀ (gs : List (String × Gather)) (tlrs : List (String × Int))
      (acc : List (String × Option FileInfo)),
    (gs.map Prod.fst).Nodup →
    (∀ q, (lookupAL gs q).isSome = true → lookupAL tlrs q = lookupAL tlrs0 q) →
    ∀ (p : String) (fio : Option FileInfo),
      lookupAL (raiseLoop t gs tlrs acc).2 p = some fio →
      lookupAL acc p = some fio ∨
      ∃ g, lookupAL gs p = some g ∧ fio = g.fileInfo ∧
        ((lookupAL tlrs0 p).getD 0 = 0 ∨ g.modTime = 0 ∨
          (lookupAL tlrs0 p).getD 0 ≤ g.modTime) := by
  intro gs
  induction gs with
  | nil =>
    intro tlrs acc hnd hagree p fio hp
    simp only [raiseLoop] at hp
    exact Or.inl hp
  | cons qg rest ih =>
    intro tlrs acc hnd hagree p fio hp
    obtain ⟨q, g⟩ := qg
    have hqhead : lookupAL ((q, g) :: rest) q = some g := by simp [lookupAL]
    have hagreeq : lookupAL tlrs q = lookupAL tlrs0 q :=
      hagree q (by simp [hqhead])
    simp only [List.map_cons, List.nodup_cons] at hnd
    have hqnotin : q ∉ rest.map Prod.fst := hnd.1
    have hcons : ∀ q', q' ≠ q →
        lookupAL ((q, g) :: rest) q' = lookupAL rest q' := fun q' hne =>
      lookupAL_cons_ne q q' g rest hne
    have hagreerest : ∀ (tl : List (String × Int)),
        (∀ q', (lookupAL ((q, g) :: rest) q').isSome = true →
          lookupAL tl q' = lookupAL tlrs0 q') →
        ∀ q', (lookupAL rest q').isSome = true →
          lookupAL tl q' = lookupAL tlrs0 q' := by
      intro tl htl q' hq'
      have hne : q' ≠ q := fun hEq =>
        hqnotin (hEq ▸ mem_keys_of_lookupAL_isSome rest q' hq')
      exact htl q' (by rw [hcons q' hne]; exact hq')
    simp only [raiseLoop] at hp
    by_cases hcond : ((lookupAL tlrs q).getD 0 = 0 ∨ g.modTime = 0 ∨
        (lookupAL tlrs q).getD 0 ≤ g.modTime)
    · rw [if_pos hcond] at hp
      have hagree' : ∀ q', (lookupAL rest q').isSome = true →
          lookupAL (insertAL tlrs q t) q' = lookupAL tlrs0 q' := by
        intro q' hq'
        have hne : q' ≠ q := fun hEq =>
          hqnotin (hEq ▸ mem_keys_of_lookupAL_isSome rest q' hq')
        rw [lookupAL_insert_ne tlrs q q' t hne]
        exact hagreerest tlrs hagree q' hq'
      rcases ih (insertAL tlrs q t) (insertAL acc q g.fileInfo) hnd.2 hagree'
          p fio hp with hl | hr
      · by_cases hpq : p = q
        · subst hpq
          rw [lookupAL_insert_self acc p g.fileInfo] at hl
          injection hl with hl
          right
          exact ⟨g, hqhead, hl.symm, hagreeq ▸ hcond⟩
        · rw [lookupAL_insert_ne acc q p g.fileInfo hpq] at hl
          exact Or.inl hl
      · obtain ⟨g', hg1, hg2, hg3⟩ := hr
        have hpq : p ≠ q := fun hEq => hqnotin
          (hEq ▸ mem_keys_of_lookupAL_isSome rest p (by simp [hg1]))
        right
        exact ⟨g', by rw [hcons p hpq]; exact hg1, hg2, hg3⟩
    · rw [if_neg hcond] at hp
      rcases ih tlrs acc hnd.2 (hagreerest tlrs hagree) p fio hp with hl | hr
      · exact Or.inl hl
      · obtain ⟨g', hg1, hg2, hg3⟩ := hr
        have hpq : p ≠ q := fun hEq => hqnotin
          (hEq ▸ mem_keys_of_lookupAL_isSome rest p (by simp [hg1]))
        right
        exact ⟨g', by rw [hcons p hpq]; exact hg1, hg2, hg3⟩

lemma runCycle_eq_raisePhase (cfg : WatchCfg) (wignore : Bool) (fs : FS)
    (tstart : Int) (dr dp : List String) (w : WState) (scan : Scan)
    (hscan : scanPhase cfg wignore fs dr dp = some scan) :
    runCycle cfg wignore fs tstart dr dp w =
      some (raisePhase cfg.postponeAnyModsLaterThanThisAgo tstart scan w) := by
  simp only [runCycle, hscan]

lemma raisePhase_doRaise (postpone tstart : Int) (scan : Scan) (w : WState)
    (hc : w.firstrun = true ∨ postpone ≤ 0 ∨ tstart - scan.modnewest > postpone) :
    (raisePhase postpone tstart scan w).wstate.timeslastraised =
      (raiseLoop tstart scan.gathers w.timeslastraised []).1 ∧
    (raisePhase postpone tstart scan w).cbRaisings =
      (raiseLoop tstart scan.gathers w.timeslastraised []).2 ∧
    (raisePhase postpone tstart scan w).numraised =
      (raiseLoop tstart scan.gathers w.timeslastraised []).2.length := by
  have hb : (w.firstrun || decide (postpone ≤ 0)
      || decide (tstart - scan.modnewest > postpone)) = true := by
    rcases hc with h | h | h
    · simp [h]
    · simp [h]
    · simp [h]
  simp [raisePhase, hb]

lemma raisePhase_noRaise (postpone tstart : Int) (scan : Scan) (w : WState)
    (hc : ¬(w.firstrun = true ∨ postpone ≤ 0 ∨ tstart - scan.modnewest > postpone)) :
    (raisePhase postpone tstart scan w).wstate.timeslastraised =
      w.timeslastraised ∧
    (raisePhase postpone tstart scan w).cbRaisings = [] ∧
    (raisePhase postpone tstart scan w).numraised = 0 := by
  push_neg at hc
  have h1 : w.firstrun = false := by
    cases hf : w.firstrun
    · rfl
    · exact absurd hf hc.1
  obtain ⟨-, h2, h3⟩ := hc
  simp [raisePhase, h1, h2, h3]
  rw [if_neg (by omega)]
  exact ⟨rfl, rfl⟩

lemma raisePhase_cb (postpone tstart : Int) (scan : Scan) (w : WState) :
    (raisePhase postpone tstart scan w).cbTstart = tstart ∧
    (raisePhase postpone tstart scan w).cbFirstrun = w.firstrun ∧
    (raisePhase postpone tstart scan w).wstate.firstrun = false := by
  constructor
  · simp [raisePhase]
  constructor
  · simp [raisePhase]
  · simp [raisePhase]

/-! Concrete configurations and filesystems used to settle the claims on
explicit inputs. -/

/-- The empty filesystem: every stat and every listing fails. -/
def fsE : FS := { statm := [], dirs := [] }

/-- Suffix-free configuration, admit-everything `dirOk`, zero hold-off. -/
def cfgA : WatchCfg :=
  { restrictFilesToSuffix := ""
    dirOk := some (fun _ _ _ _ => true)
    postponeAnyModsLaterThanThisAgo := 0 }

/-- Configuration with a nil `dirOk`. -/
def cfg6 : WatchCfg :=
  { restrictFilesToSuffix := ""
    dirOk := none
    postponeAnyModsLaterThanThisAgo := 0 }

/-- One existing, empty directory `d`. -/
def fs6 : FS := { statm := [("d", ⟨"d", FMode.dir, 1⟩)], dirs := [("d", [])] }

/-- A regular file with modification time zero. -/
def fi0 : FileInfo := ⟨"f", FMode.regular, 0⟩

/-- Filesystem with the single zero-mod-time file `f` (no listings). -/
def fs2 : FS := { statm := [("f", fi0)], dirs := [] }

def scan2 : Scan := (scanPhase cfgA false fs2 [] ["f"]).getD default

def res2a : CycleResult :=
  (runCycle cfgA false fs2 10 [] ["f"] initialWState).getD default

def res2b : CycleResult :=
  (runCycle cfgA false fs2 20 [] ["f"] res2a.wstate).getD default

/-- A regular file with modification time 100. -/
def fi5 : FileInfo := ⟨"f", FMode.regular, 100⟩

/-- Filesystem with the single file `f`, mod-time 100. -/
def fs5c : FS := { statm := [("f", fi5)], dirs := [] }

def scan5 : Scan := (scanPhase cfgA false fs5c [] ["f"]).getD default

def res5a : CycleResult :=
  (runCycle cfgA false fs5c 100 [] ["f"] initialWState).getD default

def res5b : CycleResult :=
  (runCycle cfgA false fs5c 200 [] ["f"] res5a.wstate).getD default

/-- A directory-admission function rejecting exactly the path `r`. -/
def dirOk7 (_ _ : List String) (dirfullpath _ : String) : Bool :=
  !(dirfullpath == "r")

def cfg7 : WatchCfg :=
  { restrictFilesToSuffix := ""
    dirOk := some dirOk7
    postponeAnyModsLaterThanThisAgo := 0 }

/-- Root directory `r` containing directory `c`, which contains file `f`. -/
def fs7 : FS :=
  { statm := [("r", ⟨"r", FMode.dir, 1⟩)]
    dirs := [("r", [⟨"c", FMode.dir, 2⟩]), ("r/c", [⟨"f", FMode.regular, 3⟩])] }

def res7 : CycleResult :=
  (runCycle cfg7 false fs7 10 ["r"] [] initialWState).getD default

/-- A plain `dirok` closure rejecting exactly the path `r`. -/
def dk7 : DirokFn := fun dirfullpath _ => some (!(dirfullpath == "r"))

/-- Five-second hold-off configuration. -/
def cfgB : WatchCfg :=
  { restrictFilesToSuffix := ""
    dirOk := some (fun _ _ _ _ => true)
    postponeAnyModsLaterThanThisAgo := 5000000000 }

/-- A regular file modified at nanosecond 1000000000. -/
def fiB : FileInfo := ⟨"f", FMode.regular, 1000000000⟩

/-- Filesystem with the single file `f`, mod-time 1000000000. -/
def fsB : FS := { statm := [("f", fiB)], dirs := [] }

/-- A non-first-cycle watcher state with one history entry. -/
def wB : WState :=
  { firstrun := false, gatherscap := 64, timeslastraised := [("f", 500)] }

def scanB : Scan := (scanPhase cfgB false fsB [] ["f"]).getD default

def resB : CycleResult :=
  (runCycle cfgB false fsB 2000000000 [] ["f"] wB).getD default

def scanW5 : Scan := (scanPhase cfgA false fsB [] ["f"]).getD default

def resW5a : CycleResult :=
  (runCycle cfgA false fsB 2000000000 [] ["f"] initialWState).getD default

def resW5b : CycleResult :=
  (runCycle cfgA false fsB 3000000000 [] ["f"] resW5a.wstate).getD default

/-! Theorems settling the claims. -/

/-- Claim C1: the claim asserts that `runCycle` always returns normally,
in particular when a recursive root cannot be stat'ed.  The code violates
this: for a root absent from the filesystem, `walk` discards the stat error
and passes the nil fileinfo to `ondirorfile`, whose `fileinfo.IsDir()` is a
nil-interface panic; the invocation does not return normally (modelled as
`none`). -/
theorem runCycle_missing_recursive_root_panics :
    runCycle cfgA false fsE 10 ["missing"] [] initialWState = none := rfl

/-- Claim C2 counterexample: the file `f` has observed mod-time 0; it was
raised in cycle 1 (history entry 10), and although 0 is strictly before 10 —
so the claimed condition "never raised before, or mod-time at or after the
recorded timestamp" is false — cycle 2 raises it again, through the
`gather.modTime == 0` escape in the code. -/
theorem raise_despite_history_cex :
    lookupAL res2a.wstate.timeslastraised "f" = some 10 ∧
    lookupAL scan2.gathers "f" = some ⟨some fi0, 0⟩ ∧
    ¬((10 : Int) ≤ 0) ∧
    lookupAL res2b.cbRaisings "f" = some (some fi0) := by decide

/-- Claim C2 (amended): a path is included in the raised set only if its
raise-history lookup (zero when absent) is zero, or its observed
modification timestamp is zero, or the history timestamp is at most the
observed timestamp.  The original claim lacked the zero-mod-time escape. -/
theorem raised_implies_history_cond (cfg : WatchCfg) (wignore : Bool)
    (fs : FS) (tstart : Int) (dr dp : List String) (w : WState) (scan : Scan)
    (r : CycleResult) (p : String) (fio : Option FileInfo)
    (hscan : scanPhase cfg wignore fs dr dp = some scan)
    (hrun : runCycle cfg wignore fs tstart dr dp w = some r)
    (hmem : lookupAL r.cbRaisings p = some fio) :
    ∃ g, lookupAL scan.gathers p = some g ∧ fio = g.fileInfo ∧
      ((lookupAL w.timeslastraised p).getD 0 = 0 ∨ g.modTime = 0 ∨
        (lookupAL w.timeslastraised p).getD 0 ≤ g.modTime) := by
  rw [runCycle_eq_raisePhase cfg wignore fs tstart dr dp w scan hscan] at hrun
  injection hrun with hrun
  subst hrun
  by_cases hc : (w.firstrun = true ∨ cfg.postponeAnyModsLaterThanThisAgo ≤ 0 ∨
      tstart - scan.modnewest > cfg.postponeAnyModsLaterThanThisAgo)
  · have hd := raisePhase_doRaise _ tstart scan w hc
    rw [hd.2.1] at hmem
    have hnd := (scanPhase_inv cfg wignore fs dr dp scan hscan).1
    rcases raiseLoop_raised tstart w.timeslastraised scan.gathers
        w.timeslastraised [] hnd (fun q _ => rfl) p fio hmem with hl | hr
    · simp [lookupAL] at hl
    · exact hr
  · have hn := raisePhase_noRaise _ tstart scan w hc
    rw [hn.2.1] at hmem
    simp [lookupAL] at hmem

/-- Witness for `raised_implies_history_cond` at the concrete second cycle
of the zero-mod-time scenario. -/
theorem raised_implies_history_cond_witness :
    ∃ g, lookupAL scan2.gathers "f" = some g ∧
      (some fi0 : Option FileInfo) = g.fileInfo ∧
      ((lookupAL res2a.wstate.timeslastraised "f").getD 0 = 0 ∨ g.modTime = 0 ∨
        (lookupAL res2a.wstate.timeslastraised "f").getD 0 ≤ g.modTime) :=
  raised_implies_history_cond cfgA false fs2 20 [] ["f"] res2a.wstate scan2
    res2b "f" (some fi0) rfl rfl (by decide)

/-- Claim C3: in a cycle that scans successfully, the raise step's effect
occurs exactly when `firstrun ∨ holdOff ≤ 0 ∨ cycleStart − modnewest >
holdOff`: when the condition holds, the history map and the raised set are
exactly the raise loop's output; otherwise nothing at all is raised, the
history map is untouched and the returned count is zero. -/
theorem raise_step_iff_condition (cfg : WatchCfg) (wignore : Bool) (fs : FS)
    (tstart : Int) (dr dp : List String) (w : WState) (scan : Scan)
    (r : CycleResult)
    (hscan : scanPhase cfg wignore fs dr dp = some scan)
    (hrun : runCycle cfg wignore fs tstart dr dp w = some r) :
    ((w.firstrun = true ∨ cfg.postponeAnyModsLaterThanThisAgo ≤ 0 ∨
        tstart - scan.modnewest > cfg.postponeAnyModsLaterThanThisAgo) →
      r.wstate.timeslastraised =
        (raiseLoop tstart scan.gathers w.timeslastraised []).1 ∧
      r.cbRaisings = (raiseLoop tstart scan.gathers w.timeslastraised []).2) ∧
    (¬(w.firstrun = true ∨ cfg.postponeAnyModsLaterThanThisAgo ≤ 0 ∨
        tstart - scan.modnewest > cfg.postponeAnyModsLaterThanThisAgo) →
      r.cbRaisings = [] ∧ r.wstate.timeslastraised = w.timeslastraised ∧
        r.numraised = 0) := by
  rw [runCycle_eq_raisePhase cfg wignore fs tstart dr dp w scan hscan] at hrun
  injection hrun with hrun
  subst hrun
  constructor
  · intro hc
    have hd := raisePhase_doRaise _ tstart scan w hc
    exact ⟨hd.1, hd.2.1⟩
  · intro hc
    have hn := raisePhase_noRaise _ tstart scan w hc
    exact ⟨hn.2.1, hn.1, hn.2.2⟩

/-- Witness for `raise_step_iff_condition`: the claim's own instance —
hold-off five seconds, a file modified one second before cycle start,
a non-first cycle — raises nothing. -/
theorem raise_step_iff_condition_witness :
    resB.cbRaisings = [] ∧ resB.wstate.timeslastraised = wB.timeslastraised ∧
    resB.numraised = 0 :=
  (raise_step_iff_condition cfgB false fsB 2000000000 [] ["f"] wB scanB resB
    rfl rfl).2 (by decide)

/-- Claim C4: on the very first cycle (fresh watcher state), every path
recorded by the scan is included in the raised set handed to the callback,
for any hold-off value. -/
theorem first_cycle_raises_all (cfg : WatchCfg) (wignore : Bool) (fs : FS)
    (tstart : Int) (dr dp : List String) (scan : Scan) (r : CycleResult)
    (p : String)
    (hscan : scanPhase cfg wignore fs dr dp = some scan)
    (hrun : runCycle cfg wignore fs tstart dr dp initialWState = some r)
    (hp : (lookupAL scan.gathers p).isSome = true) :
    (lookupAL r.cbRaisings p).isSome = true := by
  rw [runCycle_eq_raisePhase cfg wignore fs tstart dr dp initialWState scan
    hscan] at hrun
  injection hrun with hrun
  subst hrun
  have hd := raisePhase_doRaise cfg.postponeAnyModsLaterThanThisAgo tstart scan
    initialWState (Or.inl rfl)
  rw [hd.2.1]
  have hnd := (scanPhase_inv cfg wignore fs dr dp scan hscan).1
  have hf := raiseLoop_fresh tstart scan.gathers initialWState.timeslastraised
    [] p hnd (fun q _ => rfl)
  rw [hf.2]
  cases hg : lookupAL scan.gathers p with
  | none => rw [hg] at hp; simp at hp
  | some g => simp [hg]

/-- Witness for `first_cycle_raises_all` on the one-file filesystem. -/
theorem first_cycle_raises_all_witness :
    (lookupAL res2a.cbRaisings "f").isSome = true :=
  first_cycle_raises_all cfgA false fs2 10 [] ["f"] scan2 res2a "f" rfl rfl
    (by decide)

/-- Claim C5 counterexample: the file `f` is raised in the first cycle at
`t1 = 100` with observed mod-time 100; in the second cycle at `t2 = 200` its
observed mod-time is still 100 (the filesystem is unchanged), yet the path
is raised again, because the code re-raises when the history timestamp is at
most (not strictly greater than) the mod-time. -/
theorem reraise_unchanged_cex :
    lookupAL res5a.cbRaisings "f" = some (some fi5) ∧
    lookupAL res5a.wstate.timeslastraised "f" = some 100 ∧
    lookupAL scan5.gathers "f" = some ⟨some fi5, 100⟩ ∧
    lookupAL res5b.cbRaisings "f" = some (some fi5) := by decide

/-- Claim C5 (amended): when every mod-time observed by the (unchanged) scan
is non-zero and strictly earlier than the first cycle's start `t1 > 0`, a
second cycle over the same filesystem raises nothing, returns count zero,
and leaves the raise-history map exactly as the first cycle left it.  The
original claim, without the strictness and non-zero provisos, is refuted by
`reraise_unchanged_cex`. -/
theorem no_reraise_unchanged (cfg : WatchCfg) (wignore : Bool) (fs : FS)
    (t1 t2 : Int) (dr dp : List String) (scan : Scan) (r1 r2 : CycleResult)
    (hscan : scanPhase cfg wignore fs dr dp = some scan)
    (hall : ∀ pg ∈ scan.gathers, (Prod.snd pg : Gather).modTime ≠ 0 ∧
      (Prod.snd pg : Gather).modTime < t1)
    (ht1 : 0 < t1)
    (hrun1 : runCycle cfg wignore fs t1 dr dp initialWState = some r1)
    (hrun2 : runCycle cfg wignore fs t2 dr dp r1.wstate = some r2) :
    r2.numraised = 0 ∧ r2.cbRaisings = [] ∧
    r2.wstate.timeslastraised = r1.wstate.timeslastraised := by
  rw [runCycle_eq_raisePhase cfg wignore fs t1 dr dp initialWState scan
    hscan] at hrun1
  injection hrun1 with hrun1
  subst hrun1
  rw [runCycle_eq_raisePhase cfg wignore fs t2 dr dp _ scan hscan] at hrun2
  injection hrun2 with hrun2
  subst hrun2
  have hnd := (scanPhase_inv cfg wignore fs dr dp scan hscan).1
  have hd1 := raisePhase_doRaise cfg.postponeAnyModsLaterThanThisAgo t1 scan
    initialWState (Or.inl rfl)
  have hTL1 : ∀ q, (lookupAL scan.gathers q).isSome = true →
      lookupAL (raisePhase cfg.postponeAnyModsLaterThanThisAgo t1 scan
        initialWState).wstate.timeslastraised q = some t1 := by
    intro q hq
    rw [hd1.1]
    have hf := (raiseLoop_fresh t1 scan.gathers initialWState.timeslastraised
      [] q hnd (fun _ _ => rfl)).1
    rw [hf, if_pos hq]
  by_cases hc2 : ((raisePhase cfg.postponeAnyModsLaterThanThisAgo t1 scan
      initialWState).wstate.firstrun = true ∨
      cfg.postponeAnyModsLaterThanThisAgo ≤ 0 ∨
      t2 - scan.modnewest > cfg.postponeAnyModsLaterThanThisAgo)
  · have hd2 := raisePhase_doRaise cfg.postponeAnyModsLaterThanThisAgo t2 scan
      _ hc2
    have hnone := raiseLoop_none t2 scan.gathers
      (raisePhase cfg.postponeAnyModsLaterThanThisAgo t1 scan
        initialWState).wstate.timeslastraised [] ?_
    · refine ⟨?_, ?_, ?_⟩
      · rw [hd2.2.2, hnone]
        rfl
      · rw [hd2.2.1, hnone]
      · rw [hd2.1, hnone]
    · intro pg hm
      have hq : (lookupAL scan.gathers (Prod.fst pg)).isSome = true :=
        lookupAL_isSome_of_mem_keys scan.gathers (Prod.fst pg)
          (List.mem_map_of_mem Prod.fst hm)
      rw [hTL1 (Prod.fst pg) hq]
      obtain ⟨hm0, hmlt⟩ := hall pg hm
      intro hor
      rcases hor with h | h | h
      · simp at h; omega
      · exact hm0 h
      · simp at h; omega
  · have hn2 := raisePhase_noRaise cfg.postponeAnyModsLaterThanThisAgo t2 scan
      _ hc2
    exact ⟨hn2.2.2, hn2.2.1, hn2.1⟩

/-- Witness for `no_reraise_unchanged`: a file last modified well before the
first cycle is raised once and never again while unchanged. -/
theorem no_reraise_unchanged_witness :
    resW5b.numraised = 0 ∧ resW5b.cbRaisings = [] ∧
    resW5b.wstate.timeslastraised = resW5a.wstate.timeslastraised :=
  no_reraise_unchanged cfgA false fsB 2000000000 3000000000 [] ["f"] scanW5
    resW5a resW5b rfl (by decide) (by decide) rfl rfl

/-- Claim C6: the claim asserts that a nil `directoryAdmission` admits every
directory and the cycle runs without fault.  The code violates this: the
cycle runner unconditionally installs a non-nil wrapper closure around the
nil `dirOk`, so the `dirok == nil` test in `ondirorfile` never fires and the
first directory encountered triggers a nil-function-call panic (modelled as
`none`). -/
theorem runCycle_nil_dirok_panics :
    runCycle cfg6 false fs6 10 ["d"] [] initialWState = none := rfl

/-- Claim C7 counterexample: the admission function rejects the recursive
root `r` itself, yet the cycle still records and raises `r`'s descendants
`r/c` and `r/c/f`, because the top-level `walk` lists the root's children
regardless of the root's own rejection. -/
theorem rejected_root_descendant_raised_cex :
    dirOk7 ["r"] [] "r" "r" = false ∧
    lookupAL res7.cbRaisings "r/c" = some (some ⟨"c", FMode.dir, 2⟩) ∧
    lookupAL res7.cbRaisings "r/c/f" = some (some ⟨"f", FMode.regular, 3⟩) := by
  decide

/-- Claim C7 (amended): a directory rejected by the admission function
contributes nothing through the scan callback — the `ondirorfile` call on it
returns with the scan state unchanged, so neither it nor any descendant is
recorded by that call.  This pruning does not extend to a rejected directory
that is itself a recursive root: the top-level walk still visits the root's
direct child directories (see `rejected_root_descendant_raised_cex`). -/
theorem rejected_dir_contributes_nothing (fs : FS) (sfx : String)
    (dk : DirokFn) (fuel : Nat) (path : String) (fi : FileInfo) (st : Scan)
    (hdir : fi.IsDir = true) (hrej : dk path fi.name = some false) :
    ondirorfileF fs sfx (some dk) (Nat.succ fuel) path (some fi) st =
      some (st, true) := by
  simp [ondirorfileF, hdir, hrej]

/-- Witness for `rejected_dir_contributes_nothing` at the concrete rejected
directory `r`. -/
theorem rejected_dir_contributes_nothing_witness :
    ondirorfileF fs7 "" (some dk7) 5 "r" (some ⟨"r", FMode.dir, 1⟩)
      ⟨[], 0⟩ = some (⟨[], 0⟩, true) :=
  rejected_dir_contributes_nothing fs7 "" dk7 4 "r" ⟨"r", FMode.dir, 1⟩
    ⟨[], 0⟩ (by decide) (by decide)

/-- Claim C8 counterexample: the `otherPaths` entry `g` cannot be stat'ed
(and has no listing); contrary to the claim it is NOT recorded with a
synthetic zero timestamp — the cycle's scan is empty and nothing at all is
raised, the entry having been silently dropped. -/
theorem stat_failure_not_recorded_cex :
    lookupAL fsE.statm "g" = none ∧
    scanPhase cfgA false fsE [] ["g"] = some ⟨[], 0⟩ ∧
    runCycle cfgA false fsE 10 [] ["g"] initialWState =
      some { numraised := 0
             wstate := { firstrun := false, gatherscap := 0
                         timeslastraised := [] }
             cbRaisings := []
             cbTstart := 10
             cbFirstrun := true } := by decide

/-- Claim C8 (amended): when the stat of an `otherPaths` entry fails, the
`checkmodtime(fullpath, nil)` call records nothing — the entry contributes
no data for that cycle and is not considered for raising (its nil fileinfo
fails the non-nil guard, so no synthetic zero-timestamp record exists). -/
theorem stat_failure_drops_entry (fs : FS) (p : String) (st : Scan)
    (hstat : lookupAL fs.statm p = none) :
    checkmodtime fs p none st = st := by
  simp [checkmodtime, hstat]

/-- Witness for `stat_failure_drops_entry` on the empty filesystem. -/
theorem stat_failure_drops_entry_witness :
    checkmodtime fsE "g" none ⟨[], 0⟩ = ⟨[], 0⟩ :=
  stat_failure_drops_entry fsE "g" ⟨[], 0⟩ rfl

/-- Claim C9: every fileinfo value in the changed-path map handed to the
callback is non-nil: a path only enters the scan record together with a
fileinfo obtained from a successful stat or listing, and raising copies that
fileinfo. -/
theorem raised_fileinfo_isSome (cfg : WatchCfg) (wignore : Bool) (fs : FS)
    (tstart : Int) (dr dp : List String) (w : WState) (r : CycleResult)
    (p : String) (fio : Option FileInfo)
    (hrun : runCycle cfg wignore fs tstart dr dp w = some r)
    (hmem : lookupAL r.cbRaisings p = some fio) :
    fio.isSome = true := by
  unfold runCycle at hrun
  split at hrun
  · exact absurd hrun (by simp)
  · next scan hscan =>
    injection hrun with hrun
    subst hrun
    by_cases hc : (w.firstrun = true ∨ cfg.postponeAnyModsLaterThanThisAgo ≤ 0 ∨
        tstart - scan.modnewest > cfg.postponeAnyModsLaterThanThisAgo)
    · have hd := raisePhase_doRaise cfg.postponeAnyModsLaterThanThisAgo tstart
        scan w hc
      rw [hd.2.1] at hmem
      have hinv := scanPhase_inv cfg wignore fs dr dp scan hscan
      rcases raiseLoop_raised tstart w.timeslastraised scan.gathers
          w.timeslastraised [] hinv.1 (fun q _ => rfl) p fio hmem with hl | hr
      · simp [lookupAL] at hl
      · obtain ⟨g, hg1, hg2, _⟩ := hr
        rw [hg2]
        exact hinv.2 (p, g) (mem_of_lookupAL scan.gathers p g hg1)
    · have hn := raisePhase_noRaise cfg.postponeAnyModsLaterThanThisAgo tstart
        scan w hc
      rw [hn.2.1] at hmem
      simp [lookupAL] at hmem

/-- Witness for `raised_fileinfo_isSome` at the concrete raised path `f`. -/
theorem raised_fileinfo_isSome_witness :
    lookupAL res2a.cbRaisings "f" = some (some fi0) ∧
    (some fi0 : Option FileInfo).isSome = true :=
  ⟨by decide,
    raised_fileinfo_isSome cfgA false fs2 10 [] ["f"] initialWState res2a "f"
      (some fi0) rfl (by decide)⟩

/-- Claim C10: on a hold-off-suppressed non-first cycle the raise-history
map is left completely unchanged, the callback is still invoked — with an
empty changed-path set, the cycle-start time and a false first-run flag —
and the returned count is zero. -/
theorem suppressed_cycle_frame (cfg : WatchCfg) (wignore : Bool) (fs : FS)
    (tstart : Int) (dr dp : List String) (w : WState) (scan : Scan)
    (r : CycleResult)
    (hscan : scanPhase cfg wignore fs dr dp = some scan)
    (hrun : runCycle cfg wignore fs tstart dr dp w = some r)
    (hfirst : w.firstrun = false)
    (hpost : ¬cfg.postponeAnyModsLaterThanThisAgo ≤ 0)
    (hhold : ¬tstart - scan.modnewest > cfg.postponeAnyModsLaterThanThisAgo) :
    r.wstate.timeslastraised = w.timeslastraised ∧ r.cbRaisings = [] ∧
    r.numraised = 0 ∧ r.cbTstart = tstart ∧ r.cbFirstrun = false := by
  rw [runCycle_eq_raisePhase cfg wignore fs tstart dr dp w scan hscan] at hrun
  injection hrun with hrun
  subst hrun
  have hc : ¬(w.firstrun = true ∨ cfg.postponeAnyModsLaterThanThisAgo ≤ 0 ∨
      tstart - scan.modnewest > cfg.postponeAnyModsLaterThanThisAgo) := by
    intro h
    rcases h with h | h | h
    · rw [hfirst] at h
      exact Bool.false_ne_true h
    · exact hpost h
    · exact hhold h
  have hn := raisePhase_noRaise cfg.postponeAnyModsLaterThanThisAgo tstart
    scan w hc
  have hcb := raisePhase_cb cfg.postponeAnyModsLaterThanThisAgo tstart scan w
  exact ⟨hn.1, hn.2.1, hn.2.2, hcb.1, hfirst ▸ hcb.2.1⟩

/-- Witness for `suppressed_cycle_frame` in the five-second hold-off
scenario with a modification one second before cycle start. -/
theorem suppressed_cycle_frame_witness :
    resB.wstate.timeslastraised = wB.timeslastraised ∧ resB.cbRaisings = [] ∧
    resB.numraised = 0 ∧ resB.cbTstart = 2000000000 ∧
    resB.cbFirstrun = false :=
  suppressed_cycle_frame cfgB false fsB 2000000000 [] ["f"] wB scanB resB
    rfl rfl rfl (by decide) (by decide)
